import Mathlib

/-!
Verification development for the Kong_Bot backend
(src/kong_bot_backend/src/trading.rs and src/kong_bot_backend/src/alerts.rs).

Shallow embedding conventions:
* Rust `f64` amounts and prices are modelled as exact rationals (`ℚ`).
* `HashMap<String, V>` is modelled as a total function `String → Option V`
  (`none` means the key is absent).
* The external price fetch (`get_crypto_price`) is an external collaborator:
  each call's outcome is passed in as an `Option ℚ` parameter
  (`none` models a fetch error, `some p` a successful fetch of price `p`).
* Stable storage is snapshot-style: each public operation receives the stable
  state, and a `saveOk : Bool` parameter models whether `stable_save` succeeds.
  On a failed save the stable state is left unchanged (the freshly mutated
  in-memory map is dropped when the call returns, since every operation begins
  by re-loading from stable storage).
* The human-readable message strings returned by the Rust functions are
  modelled by the inductive `TradeResult`, one constructor per message branch.
-/

/-- Transaction type (trading.rs, enum TransactionType). -/
inductive TransactionType
  | Buy
  | Sell
deriving DecidableEq, Repr

/-- A buy or sell transaction (trading.rs, struct Transaction).
`timestamp` is the value of the `api::time()` call, passed in as `now`. -/
structure Transaction where
  transaction_type : TransactionType
  coin_id : String
  amount : ℚ
  price : ℚ
  total_value : ℚ
  timestamp : ℕ
deriving DecidableEq, Repr

/-- A user's portfolio (trading.rs, struct Portfolio). -/
structure Portfolio where
  usd_balance : ℚ
  holdings : String → Option ℚ
  transactions : List Transaction

/-- Storage of all user portfolios (trading.rs, type Portfolios). -/
abbrev Portfolios : Type := String → Option Portfolio

/-- Which message branch a trading operation returns (trading.rs returns these
as formatted strings; one constructor per `format!` branch). -/
inductive TradeResult
  | invalidAmount
  | notFound
  | insufficientFunds
  | insufficientHoldings
  | priceFetchFailed
  | saved
  | persistFailed
deriving DecidableEq, Repr

/-- Result branches of `initialize_portfolio` (trading.rs). -/
inductive InitResult
  | ok
  | alreadyExists
  | persistFailed
deriving DecidableEq, Repr

/-- The sell-side pruning threshold (trading.rs line 239: `*holding < 0.000001`). -/
def epsilon : ℚ := 1 / 1000000

/-- Embeds Rust's `str::to_lowercase` as used on the coin identifiers
(character-wise lowering; agrees with the source on ASCII identifiers). -/
def lowerString (s : String) : String := String.mk (s.data.map Char.toLower)

/-- Normalize coin ID to the canonical CoinGecko format
(trading.rs, fn normalize_coin_id): ten fixed aliases, every other
identifier passes through lower-cased. -/
def normalize_coin_id (coin_id : String) : String :=
  let l := lowerString coin_id
  if l = "btc" then "bitcoin"
  else if l = "eth" then "ethereum"
  else if l = "icp" then "internet-computer"
  else if l = "sol" then "solana"
  else if l = "ada" then "cardano"
  else if l = "dot" then "polkadot"
  else if l = "bnb" then "binancecoin"
  else if l = "xrp" then "ripple"
  else if l = "doge" then "dogecoin"
  else if l = "shib" then "shiba-inu"
  else l

/-- Embeds `initialize_portfolio` (trading.rs): fails if the user already has
a portfolio, otherwise inserts a fresh portfolio with the requested balance
(default 10000) and saves; a failed save leaves stable storage unchanged. -/
def init_portfolio (portfolios : Portfolios) (user_id : String)
    (initial_balance : Option ℚ) (saveOk : Bool) : InitResult × Portfolios :=
  match portfolios user_id with
  | some _ => (InitResult.alreadyExists, portfolios)
  | none =>
    let balance := initial_balance.getD 10000
    let portfolio : Portfolio := ⟨balance, fun _ => none, []⟩
    let portfolios' := Function.update portfolios user_id (some portfolio)
    if saveOk then (InitResult.ok, portfolios')
    else (InitResult.persistFailed, portfolios)

/-- Embeds `get_portfolio` (trading.rs): re-loads from stable storage and
looks the user up (`none` models the NotFound error string). -/
def get_portfolio (portfolios : Portfolios) (user_id : String) : Option Portfolio :=
  portfolios user_id

/-- Embeds `buy_cryptocurrency` (trading.rs lines 138-191).
`fetched` is the outcome of the `get_crypto_price` call for the normalized
coin id; `saveOk` is the outcome of `save_portfolios`; `now` is `api::time()`.
Returns the message branch and the stable state after the call. -/
def buy_cryptocurrency (portfolios : Portfolios) (user_id coin_id : String)
    (amount_usd : ℚ) (fetched : Option ℚ) (saveOk : Bool) (now : ℕ) :
    TradeResult × Portfolios :=
  if amount_usd ≤ 0 then (TradeResult.invalidAmount, portfolios)
  else
    match portfolios user_id with
    | none => (TradeResult.notFound, portfolios)
    | some portfolio =>
      if portfolio.usd_balance < amount_usd then (TradeResult.insufficientFunds, portfolios)
      else
        let normalized_id := normalize_coin_id coin_id
        match fetched with
        | none => (TradeResult.priceFetchFailed, portfolios)
        | some price =>
          let crypto_amount := amount_usd / price
          let transaction : Transaction :=
            ⟨TransactionType.Buy, normalized_id, crypto_amount, price, amount_usd, now⟩
          let portfolio' : Portfolio :=
            { usd_balance := portfolio.usd_balance - amount_usd
              holdings := Function.update portfolio.holdings normalized_id
                (some ((portfolio.holdings normalized_id).getD 0 + crypto_amount))
              transactions := portfolio.transactions ++ [transaction] }
          let portfolios' := Function.update portfolios user_id (some portfolio')
          if saveOk then (TradeResult.saved, portfolios')
          else (TradeResult.persistFailed, portfolios)

/-- Embeds `sell_cryptocurrency` (trading.rs lines 203-265).
The holding entry is removed when the remainder drops below `epsilon`;
as in the source, the holdings map is only touched if the entry exists. -/
def sell_cryptocurrency (portfolios : Portfolios) (user_id coin_id : String)
    (crypto_amount : ℚ) (fetched : Option ℚ) (saveOk : Bool) (now : ℕ) :
    TradeResult × Portfolios :=
  if crypto_amount ≤ 0 then (TradeResult.invalidAmount, portfolios)
  else
    match portfolios user_id with
    | none => (TradeResult.notFound, portfolios)
    | some portfolio =>
      let normalized_id := normalize_coin_id coin_id
      let user_crypto_amount := (portfolio.holdings normalized_id).getD 0
      if user_crypto_amount < crypto_amount then
        (TradeResult.insufficientHoldings, portfolios)
      else
        match fetched with
        | none => (TradeResult.priceFetchFailed, portfolios)
        | some price =>
          let usd_value := crypto_amount * price
          let holdings' : String → Option ℚ :=
            match portfolio.holdings normalized_id with
            | none => portfolio.holdings
            | some holding =>
              if holding - crypto_amount < epsilon then
                Function.update portfolio.holdings normalized_id none
              else
                Function.update portfolio.holdings normalized_id
                  (some (holding - crypto_amount))
          let transaction : Transaction :=
            ⟨TransactionType.Sell, normalized_id, crypto_amount, price, usd_value, now⟩
          let portfolio' : Portfolio :=
            { usd_balance := portfolio.usd_balance + usd_value
              holdings := holdings'
              transactions := portfolio.transactions ++ [transaction] }
          let portfolios' := Function.update portfolios user_id (some portfolio')
          if saveOk then (TradeResult.saved, portfolios')
          else (TradeResult.persistFailed, portfolios)

/-- Alert configuration (alerts.rs, struct Alert). -/
structure Alert where
  user : String
  coin : String
  target_price : ℚ
deriving DecidableEq, Repr

/-- Alerts storage (alerts.rs, type Alerts): keyed by the string
`user ++ "_" ++ coin` built in `set_alert`. -/
abbrev Alerts : Type := String → Option Alert

/-- Price history storage (alerts.rs, type PriceMap): the struct
`PriceHistory { last_price }` is modelled by its single `ℚ` field. -/
abbrev PriceMap : Type := String → Option ℚ

/-- Embeds `set_alert` (alerts.rs lines 112-131): unconditional insert of the
alert under the derived string key `user ++ "_" ++ coin`. -/
def set_alert (alerts : Alerts) (user coin : String) (target_price : ℚ) : Alerts :=
  Function.update alerts (user ++ "_" ++ coin) (some ⟨user, coin, target_price⟩)

/-- The inline coin-id mapping of `check_alerts` (alerts.rs lines 155-162):
four aliases only, and an unmapped coin is used as-is (NOT lower-cased). -/
def alert_coin_id (coin : String) : String :=
  let l := lowerString coin
  if l = "btc" then "bitcoin"
  else if l = "eth" then "ethereum"
  else if l = "icp" then "internet-computer"
  else if l = "sol" then "solana"
  else coin

/-- Kind of an outbound OpenChat message produced by `check_alerts`:
the two target-crossing messages and the three price-direction messages. -/
inductive NotifKind
  | crossingUp
  | crossingDown
  | gained
  | lost
  | unchanged
deriving DecidableEq, Repr

/-- An outbound notification of `check_alerts`: recipient, the canonical
coin id the message is about, and which message branch was formatted. -/
structure Notification where
  user : String
  asset : String
  kind : NotifKind
deriving DecidableEq, Repr

/-- Whether a notification kind is one of the two target-crossing messages. -/
def isCrossing : NotifKind → Bool
  | NotifKind.crossingUp => true
  | NotifKind.crossingDown => true
  | _ => false

/-- Whether a notification kind is one of the three direction messages. -/
def isDirection : NotifKind → Bool
  | NotifKind.gained => true
  | NotifKind.lost => true
  | NotifKind.unchanged => true
  | _ => false

/-- Which direction message `check_alerts` formats (alerts.rs lines 178-193):
gained when the price rose, lost when it fell, unchanged otherwise. -/
def directionKind (prev_price current_price : ℚ) : NotifKind :=
  if prev_price < current_price then NotifKind.gained
  else if current_price < prev_price then NotifKind.lost
  else NotifKind.unchanged

/-- Which target-crossing message `check_alerts` formats, if any
(alerts.rs lines 196-208): upward when the previous price was strictly below
target and the current one reached it, downward symmetrically. -/
def crossingKind (prev_price target current_price : ℚ) : Option NotifKind :=
  if prev_price < target ∧ target ≤ current_price then
    some NotifKind.crossingUp
  else if target < prev_price ∧ current_price ≤ target then
    some NotifKind.crossingDown
  else none

/-- The body of the per-alert loop of `check_alerts` (alerts.rs lines 151-227)
for one alert, given the outcome of its price fetch. Returns the notifications
sent for this alert (in send order: crossing first when present, then the
direction message), the updated in-memory price history, and whether the
`updated` flag was set. A failed fetch only logs and changes nothing. -/
def processAlert (price_history : PriceMap) (alert : Alert) (fetched : Option ℚ) :
    List Notification × PriceMap × Bool :=
  match fetched with
  | none => ([], price_history, false)
  | some current_price =>
    let coin_id := alert_coin_id alert.coin
    let prev_price := (price_history coin_id).getD current_price
    let crossing := crossingKind prev_price alert.target_price current_price
    ((crossing.toList.map (fun k => ⟨alert.user, coin_id, k⟩)) ++
       [⟨alert.user, coin_id, directionKind prev_price current_price⟩],
     Function.update price_history coin_id (some current_price),
     true)

/-- Accumulated state of one `check_alerts` sweep: all notifications sent so
far (in send order), the in-memory price history, and the `updated` flag. -/
structure SweepState where
  notifs : List Notification
  history : PriceMap
  updated : Bool

/-- One iteration of the `check_alerts` loop. -/
def stepAlert (st : SweepState) (x : Alert × Option ℚ) : SweepState :=
  let r := processAlert st.history x.1 x.2
  ⟨st.notifs ++ r.1, r.2.1, st.updated || r.2.2⟩

/-- Embeds `check_alerts` (alerts.rs lines 144-237): iterates over the loaded
alerts (the HashMap iteration order is arbitrary, so the sweep is modelled
over an arbitrary list), pairing each alert with the outcome of its price
fetch. -/
def check_alerts (alerts : List (Alert × Option ℚ)) (price_history : PriceMap) :
    SweepState :=
  alerts.foldl stepAlert ⟨[], price_history, false⟩

/-- The direction message is never one of the two crossing messages. -/
lemma isCrossing_directionKind (p c : ℚ) : isCrossing (directionKind p c) = false := by
  unfold directionKind
  split_ifs <;> rfl

/-- The direction message is always one of the three direction kinds. -/
lemma isDirection_directionKind (p c : ℚ) : isDirection (directionKind p c) = true := by
  unfold directionKind
  split_ifs <;> rfl

/-- The direction message is the gained one exactly when the price rose. -/
lemma directionKind_eq_gained (p c : ℚ) :
    directionKind p c = NotifKind.gained ↔ p < c := by
  unfold directionKind
  split_ifs with h1 h2 <;> simp [h1]

/-- The direction message is the lost one exactly when the price fell. -/
lemma directionKind_eq_lost (p c : ℚ) :
    directionKind p c = NotifKind.lost ↔ c < p := by
  unfold directionKind
  split_ifs with h1 h2
  · simp [lt_asymm h1]
  · simp [h2]
  · simp [h2]

/-- The direction message is the unchanged one exactly when the price held. -/
lemma directionKind_eq_unchanged (p c : ℚ) :
    directionKind p c = NotifKind.unchanged ↔ p = c := by
  unfold directionKind
  split_ifs with h1 h2
  · simp [h1.ne]
  · simp [h2.ne']
  · simp [le_antisymm (not_lt.1 h2) (not_lt.1 h1)]

/-- A crossing message exists exactly under the strict-transition condition. -/
lemma crossingKind_isSome_iff (p T c : ℚ) :
    (crossingKind p T c).isSome = true ↔ (p < T ∧ T ≤ c) ∨ (T < p ∧ c ≤ T) := by
  unfold crossingKind
  split_ifs with h1 h2
  · simp [h1]
  · simp [h1, h2]
  · simp [h1, h2]

/-- Whatever `crossingKind` yields is one of the two crossing kinds. -/
lemma crossingKind_crossing (p T c : ℚ) (k : NotifKind)
    (hk : crossingKind p T c = some k) : isCrossing k = true := by
  unfold crossingKind at hk
  split_ifs at hk
  · injection hk with h
    subst h
    rfl
  · injection hk with h
    subst h
    rfl

/-- C5 counterexample: the Ledger normalization maps "ada" to "cardano" while
the AlertEvaluator's inline mapping leaves "ada" unchanged, so the two
normalizations are not extensionally equal. -/
theorem normalize_divergence_ada :
    normalize_coin_id "ada" = "cardano" ∧ alert_coin_id "ada" = "ada" ∧
      ¬ normalize_coin_id "ada" = alert_coin_id "ada" := by
  refine ⟨by decide, by decide, by decide⟩

/-- C5 (amended): the two normalizations agree on every input whose lowercase
form is one of the four shared aliases (btc, eth, icp, sol), and on every
already-lowercase input that is not one of the six aliases known only to the
Ledger (ada, dot, bnb, xrp, doge, shib); they are not equal in general. -/
theorem normalize_agreement_domain :
    ∀ s : String,
      ((lowerString s = "btc" ∨ lowerString s = "eth" ∨ lowerString s = "icp" ∨
          lowerString s = "sol") → normalize_coin_id s = alert_coin_id s) ∧
      (lowerString s = s →
        lowerString s ≠ "ada" → lowerString s ≠ "dot" → lowerString s ≠ "bnb" →
        lowerString s ≠ "xrp" → lowerString s ≠ "doge" → lowerString s ≠ "shib" →
        normalize_coin_id s = alert_coin_id s) := by
  intro s
  constructor
  · rintro (h | h | h | h) <;> simp [normalize_coin_id, alert_coin_id, h]
  · intro hl h1 h2 h3 h4 h5 h6
    by_cases hb : lowerString s = "btc"
    · simp [normalize_coin_id, alert_coin_id, hb]
    by_cases he : lowerString s = "eth"
    · simp [normalize_coin_id, alert_coin_id, hb, he]
    by_cases hi : lowerString s = "icp"
    · simp [normalize_coin_id, alert_coin_id, hb, he, hi]
    by_cases ho : lowerString s = "sol"
    · simp [normalize_coin_id, alert_coin_id, hb, he, hi, ho]
    simp only [normalize_coin_id, alert_coin_id]
    simp [hb, he, hi, ho, h1, h2, h3, h4, h5, h6]
    exact hl

/-- Witness for the amended C5 theorem at the concrete inputs "BTC" (shared
alias) and "monero" (lowercase unmapped identifier). -/
theorem normalize_agreement_domain_w :
    normalize_coin_id "BTC" = alert_coin_id "BTC" ∧
      normalize_coin_id "monero" = alert_coin_id "monero" :=
  ⟨(normalize_agreement_domain "BTC").1 (Or.inl (by decide)),
   (normalize_agreement_domain "monero").2 (by decide) (by decide) (by decide)
     (by decide) (by decide) (by decide) (by decide)⟩

/-- Alert store obtained by setting an alert for the pair ("a_b", "c"). -/
def alertsW0 : Alerts := set_alert (fun _ => none) "a_b" "c" 5

/-- The same store after additionally setting an alert for ("a", "b_c"). -/
def alertsW1 : Alerts := set_alert alertsW0 "a" "b_c" 7

/-- C9: the alert key is the string user ++ "_" ++ coin, which is not
injective on (user, coin) pairs: setting an alert for ("a", "b_c") overwrites
the alert previously stored for the distinct pair ("a_b", "c"), because both
derive the key "a_b_c". -/
theorem set_alert_key_collision :
    alertsW0 "a_b_c" = some ⟨"a_b", "c", 5⟩ ∧
      alertsW1 "a_b_c" = some ⟨"a", "b_c", 7⟩ := by
  refine ⟨by decide, by decide⟩

/-- A kind cannot be both a crossing kind and a direction kind. -/
lemma not_direction_of_crossing (k : NotifKind) (h : isCrossing k = true) :
    isDirection k = false := by
  cases k <;> simp_all [isCrossing, isDirection]

/-- C4: an alert with a successful price fetch emits a crossing notification
exactly when the previous observed price (taken as the current price when the
asset has never been observed) was strictly below the target and the current
price reached it, or strictly above the target and the current price dropped
to it. In particular nothing fires when prev = target = cur, when both prices
are strictly on one side of the target, or on a first-ever observation. -/
theorem crossing_notification_iff (h : PriceMap) (a : Alert) (cur : ℚ) :
    (∃ n ∈ (processAlert h a (some cur)).1, isCrossing n.kind = true) ↔
      ((h (alert_coin_id a.coin)).getD cur < a.target_price ∧
          a.target_price ≤ cur) ∨
        (a.target_price < (h (alert_coin_id a.coin)).getD cur ∧
          cur ≤ a.target_price) := by
  rw [← crossingKind_isSome_iff ((h (alert_coin_id a.coin)).getD cur) a.target_price cur]
  simp only [processAlert]
  rcases hc : crossingKind ((h (alert_coin_id a.coin)).getD cur) a.target_price cur
    with _ | k
  · simp [hc, isCrossing_directionKind]
  · have hck := crossingKind_crossing _ _ _ k hc
    simp [hc, hck]

/-- Witness for the C4 theorem: with previous observation 9, target 10 and
current price 11, a crossing notification is emitted. -/
theorem crossing_notification_iff_w :
    ∃ n ∈ (processAlert (Function.update (fun _ => none) "internet-computer"
        (some 9)) ⟨"bob", "icp", 10⟩ (some 11)).1,
      isCrossing n.kind = true :=
  (crossing_notification_iff (Function.update (fun _ => none) "internet-computer"
      (some 9)) ⟨"bob", "icp", 10⟩ 11).mpr (by decide)

/-- C8: for every alert processed with a successful price fetch, the emitted
messages are zero or one crossing messages followed by exactly one direction
message, sent last in every case and classified gained, lost or unchanged by
comparing the current price to the previous one. -/
theorem direction_notification_contract (h : PriceMap) (a : Alert) (cur : ℚ) :
    ∃ pre d,
      (processAlert h a (some cur)).1 = pre ++ [d] ∧
      isDirection d.kind = true ∧
      (∀ n ∈ pre, isCrossing n.kind = true) ∧
      (∀ n ∈ (processAlert h a (some cur)).1, isDirection n.kind = true → n = d) ∧
      d.user = a.user ∧
      (d.kind = NotifKind.gained ↔ (h (alert_coin_id a.coin)).getD cur < cur) ∧
      (d.kind = NotifKind.lost ↔ cur < (h (alert_coin_id a.coin)).getD cur) ∧
      (d.kind = NotifKind.unchanged ↔ (h (alert_coin_id a.coin)).getD cur = cur) := by
  refine ⟨(crossingKind ((h (alert_coin_id a.coin)).getD cur) a.target_price
      cur).toList.map (fun k => ⟨a.user, alert_coin_id a.coin, k⟩),
    ⟨a.user, alert_coin_id a.coin,
      directionKind ((h (alert_coin_id a.coin)).getD cur) cur⟩,
    rfl, isDirection_directionKind _ _, ?_, ?_, rfl,
    directionKind_eq_gained _ _, directionKind_eq_lost _ _,
    directionKind_eq_unchanged _ _⟩
  · intro n hn
    rcases hc : crossingKind ((h (alert_coin_id a.coin)).getD cur) a.target_price cur
      with _ | k
    · rw [hc] at hn
      simp at hn
    · rw [hc] at hn
      simp at hn
      rw [hn]
      exact crossingKind_crossing _ _ _ k hc
  · intro n hn hdir
    simp only [processAlert, List.mem_append, List.mem_map, List.mem_singleton] at hn
    rcases hn with ⟨k, hk, rfl⟩ | rfl
    · have hck := crossingKind_crossing _ _ _ k (by simpa using hk)
      have := not_direction_of_crossing k hck
      simp_all
    · rfl

/-- C2: a buy with an existing portfolio, an amount within the balance and a
successful price fetch debits the balance by exactly the USD amount, credits
the canonical asset's holding by amount divided by price, appends exactly one
Buy transaction recording that price and total value, and leaves every other
holding and every other user's portfolio unchanged. -/
theorem buy_spec (s : Portfolios) (user coin : String) (u p : ℚ) (now : ℕ)
    (P : Portfolio) (hs : s user = some P) (hu : 0 < u)
    (hb : u ≤ P.usd_balance) :
    (buy_cryptocurrency s user coin u (some p) true now).1 = TradeResult.saved ∧
    ((buy_cryptocurrency s user coin u (some p) true now).2 user).map
        Portfolio.usd_balance = some (P.usd_balance - u) ∧
    ((buy_cryptocurrency s user coin u (some p) true now).2 user).bind
        (fun q => q.holdings (normalize_coin_id coin)) =
      some ((P.holdings (normalize_coin_id coin)).getD 0 + u / p) ∧
    ((buy_cryptocurrency s user coin u (some p) true now).2 user).map
        Portfolio.transactions =
      some (P.transactions ++
        [⟨TransactionType.Buy, normalize_coin_id coin, u / p, p, u, now⟩]) ∧
    (∀ y, y ≠ normalize_coin_id coin →
      ((buy_cryptocurrency s user coin u (some p) true now).2 user).bind
          (fun q => q.holdings y) = P.holdings y) ∧
    (∀ v, v ≠ user →
      (buy_cryptocurrency s user coin u (some p) true now).2 v = s v) := by
  have h1 : ¬ u ≤ 0 := not_le.2 hu
  have h2 : ¬ P.usd_balance < u := not_lt.2 hb
  simp only [buy_cryptocurrency, h1, if_false, hs, h2]
  refine ⟨rfl, ?_, ?_, ?_, ?_, ?_⟩
  · simp [Function.update_same]
  · simp [Function.update_same]
  · simp [Function.update_same]
  · intro y hy
    simp [Function.update_same, Function.update_noteq hy]
  · intro v hv
    simp [Function.update_noteq hv]

/-- Witness for the C2 theorem: alice starts with 1000 USD and buys 500 USD
of btc at price 1; her balance afterwards is exactly 500. -/
theorem buy_spec_w :
    ((buy_cryptocurrency
        (Function.update (fun _ => none) "alice" (some ⟨1000, fun _ => none, []⟩))
        "alice" "btc" 500 (some 1) true 0).2 "alice").map
      Portfolio.usd_balance = some 500 := by
  have h := (buy_spec
      (Function.update (fun _ => none) "alice" (some ⟨1000, fun _ => none, []⟩))
      "alice" "btc" 500 1 0 ⟨1000, fun _ => none, []⟩
      (Function.update_same _ _ _) (by norm_num) (by norm_num)).2.1
  rw [show (⟨1000, fun _ => none, []⟩ : Portfolio).usd_balance - 500 = (500:ℚ)
    by norm_num] at h
  exact h

/-- C3: a sell with an existing portfolio fails with InsufficientHoldings and
no state change when the held amount of the canonical asset is strictly less
than the requested amount; otherwise, with a successful price fetch, it
credits the balance by amount times price, debits the holding by the amount
(removing the entry exactly when the remainder falls below epsilon), appends
exactly one Sell transaction, and leaves every other holding and every other
user's portfolio unchanged. -/
theorem sell_spec (s : Portfolios) (user coin : String) (c p : ℚ) (now : ℕ)
    (P : Portfolio) (hs : s user = some P) (hc : 0 < c) :
    ((P.holdings (normalize_coin_id coin)).getD 0 < c →
      sell_cryptocurrency s user coin c (some p) true now =
        (TradeResult.insufficientHoldings, s)) ∧
    (c ≤ (P.holdings (normalize_coin_id coin)).getD 0 →
      (sell_cryptocurrency s user coin c (some p) true now).1 =
          TradeResult.saved ∧
      ((sell_cryptocurrency s user coin c (some p) true now).2 user).map
          Portfolio.usd_balance = some (P.usd_balance + c * p) ∧
      ((sell_cryptocurrency s user coin c (some p) true now).2 user).bind
          (fun q => q.holdings (normalize_coin_id coin)) =
        (if (P.holdings (normalize_coin_id coin)).getD 0 - c < epsilon then none
         else some ((P.holdings (normalize_coin_id coin)).getD 0 - c)) ∧
      ((sell_cryptocurrency s user coin c (some p) true now).2 user).map
          Portfolio.transactions =
        some (P.transactions ++
          [⟨TransactionType.Sell, normalize_coin_id coin, c, p, c * p, now⟩]) ∧
      (∀ y, y ≠ normalize_coin_id coin →
        ((sell_cryptocurrency s user coin c (some p) true now).2 user).bind
            (fun q => q.holdings y) = P.holdings y) ∧
      (∀ v, v ≠ user →
        (sell_cryptocurrency s user coin c (some p) true now).2 v = s v)) := by
  have h1 : ¬ c ≤ 0 := not_le.2 hc
  constructor
  · intro hlt
    simp only [sell_cryptocurrency, h1, if_false, hs, hlt, if_true]
  · intro hle
    have h2 : ¬ (P.holdings (normalize_coin_id coin)).getD 0 < c := not_lt.2 hle
    rcases hH : P.holdings (normalize_coin_id coin) with _ | h0
    · rw [hH] at hle
      simp at hle
      exact absurd hle h1
    · have h2' : ¬ h0 < c := by
        rw [hH] at h2
        simpa using h2
      simp only [sell_cryptocurrency, h1, if_false, hs, hH, Option.getD_some, h2']
      by_cases he : h0 - c < epsilon
      · simp only [he, if_true]
        refine ⟨?_, ?_, ?_, ?_, ?_, ?_⟩
        · simp
        · simp [Function.update_same]
        · simp [Function.update_same]
        · simp [Function.update_same]
        · intro y hy
          simp [Function.update_same, Function.update_noteq hy]
        · intro v hv
          simp [Function.update_noteq hv]
      · simp only [he, if_false]
        refine ⟨?_, ?_, ?_, ?_, ?_, ?_⟩
        · simp
        · simp [Function.update_same]
        · simp [Function.update_same]
        · simp [Function.update_same]
        · intro y hy
          simp [Function.update_same, Function.update_noteq hy]
        · intro v hv
          simp [Function.update_noteq hv]

/-- Witness for the C3 theorem: alice holds 1 bitcoin and 1000 USD, sells
1 bitcoin at price 1; her balance is exactly 1001 afterwards. -/
theorem sell_spec_w :
    ((sell_cryptocurrency
        (Function.update (fun _ => none) "alice"
          (some ⟨1000, Function.update (fun _ => none) "bitcoin" (some 1), []⟩))
        "alice" "bitcoin" 1 (some 1) true 0).2 "alice").map
      Portfolio.usd_balance = some 1001 := by
  have hnorm : normalize_coin_id "bitcoin" = "bitcoin" := by decide
  have h := ((sell_spec
      (Function.update (fun _ => none) "alice"
        (some ⟨1000, Function.update (fun _ => none) "bitcoin" (some 1), []⟩))
      "alice" "bitcoin" 1 1 0
      ⟨1000, Function.update (fun _ => none) "bitcoin" (some 1), []⟩
      (Function.update_same _ _ _) (by norm_num)).2
    (by rw [hnorm]; simp)).2.1
  rw [show (⟨1000, Function.update (fun _ => none) "bitcoin" (some 1), []⟩ :
      Portfolio).usd_balance + 1 * 1 = (1001:ℚ) by norm_num] at h
  exact h

/-- Skipping an alert: the loop body does nothing when the price fetch fails. -/
lemma stepAlert_none (st : SweepState) (a : Alert) : stepAlert st (a, none) = st := by
  rcases st with ⟨n, h, u⟩
  simp [stepAlert, processAlert]

/-- C7: a buy or sell whose price fetch fails leaves stable storage exactly as
before and, once the earlier validation checks pass, reports the price-fetch
error; during an alert sweep an alert whose price fetch fails is skipped
entirely, so the sweep's notifications, recorded observations and updated
flag are exactly those of the sweep without that alert. -/
theorem price_fetch_failure_isolated :
    ∀ (s : Portfolios) (user coin : String) (amt : ℚ) (sv : Bool) (now : ℕ),
      (buy_cryptocurrency s user coin amt none sv now).2 = s ∧
      (sell_cryptocurrency s user coin amt none sv now).2 = s ∧
      (∀ P, s user = some P → 0 < amt → amt ≤ P.usd_balance →
        (buy_cryptocurrency s user coin amt none sv now).1 =
          TradeResult.priceFetchFailed) ∧
      (∀ P, s user = some P → 0 < amt →
        amt ≤ (P.holdings (normalize_coin_id coin)).getD 0 →
        (sell_cryptocurrency s user coin amt none sv now).1 =
          TradeResult.priceFetchFailed) ∧
      (∀ (pre post : List (Alert × Option ℚ)) (a : Alert) (h0 : PriceMap),
        check_alerts (pre ++ (a, none) :: post) h0 =
          check_alerts (pre ++ post) h0) := by
  intro s user coin amt sv now
  refine ⟨?_, ?_, ?_, ?_, ?_⟩
  · by_cases h1 : amt ≤ 0
    · simp [buy_cryptocurrency, h1]
    rcases hsu : s user with _ | P
    · simp [buy_cryptocurrency, h1, hsu]
    by_cases h2 : P.usd_balance < amt
    · simp [buy_cryptocurrency, h1, hsu, h2]
    · simp [buy_cryptocurrency, h1, hsu, h2]
  · by_cases h1 : amt ≤ 0
    · simp [sell_cryptocurrency, h1]
    rcases hsu : s user with _ | P
    · simp [sell_cryptocurrency, h1, hsu]
    by_cases h2 : (P.holdings (normalize_coin_id coin)).getD 0 < amt
    · simp [sell_cryptocurrency, h1, hsu, h2]
    · simp [sell_cryptocurrency, h1, hsu, h2]
  · intro P hs hpos hble
    have h1 : ¬ amt ≤ 0 := not_le.2 hpos
    have h2 : ¬ P.usd_balance < amt := not_lt.2 hble
    simp [buy_cryptocurrency, h1, hs, h2]
  · intro P hs hpos hble
    have h1 : ¬ amt ≤ 0 := not_le.2 hpos
    have h2 : ¬ (P.holdings (normalize_coin_id coin)).getD 0 < amt := not_lt.2 hble
    simp [sell_cryptocurrency, h1, hs, h2]
  · intro pre post a h0
    simp only [check_alerts, List.foldl_append, List.foldl_cons, stepAlert_none]

/-- Witness for the C7 theorem: alice has 1000 USD and tries to buy 500 USD of
btc while the price fetch fails; the call reports the price-fetch error. -/
theorem price_fetch_failure_isolated_w :
    (buy_cryptocurrency
        (Function.update (fun _ => none) "alice" (some ⟨1000, fun _ => none, []⟩))
        "alice" "btc" 500 none true 0).1 = TradeResult.priceFetchFailed :=
  (price_fetch_failure_isolated
      (Function.update (fun _ => none) "alice" (some ⟨1000, fun _ => none, []⟩))
      "alice" "btc" 500 true 0).2.2.1
    ⟨1000, fun _ => none, []⟩ (Function.update_same _ _ _) (by norm_num)
    (by norm_num)

/-- C6 counterexample: alice has 1000 USD and buys 500 USD of btc at price 1,
but the save fails. The call reports the persist-failure message, yet a
subsequent get_portfolio observes the PRE-mutation state: balance 1000 (not
the post-mutation 500) and no appended transaction. -/
theorem persist_failure_visibility_cex :
    (buy_cryptocurrency
        (Function.update (fun _ => none) "alice" (some ⟨1000, fun _ => none, []⟩))
        "alice" "btc" 500 (some 1) false 0).1 = TradeResult.persistFailed ∧
    (get_portfolio
        (buy_cryptocurrency
          (Function.update (fun _ => none) "alice" (some ⟨1000, fun _ => none, []⟩))
          "alice" "btc" 500 (some 1) false 0).2 "alice").map
      Portfolio.usd_balance = some 1000 ∧
    (get_portfolio
        (buy_cryptocurrency
          (Function.update (fun _ => none) "alice" (some ⟨1000, fun _ => none, []⟩))
          "alice" "btc" 500 (some 1) false 0).2 "alice").map
      (fun q => q.transactions.length) = some 0 ∧
    ¬ (get_portfolio
        (buy_cryptocurrency
          (Function.update (fun _ => none) "alice" (some ⟨1000, fun _ => none, []⟩))
          "alice" "btc" 500 (some 1) false 0).2 "alice").map
      Portfolio.usd_balance = some 500 := by
  refine ⟨by decide, by decide, by decide, by decide⟩

/-- C6 (amended): when the save fails, the operation reports the distinct
persist-failure message (when the mutation itself succeeded), but the
mutation is NOT retained: stable storage is unchanged, so every subsequent
get_portfolio observes the pre-mutation balance, holdings and transactions. -/
theorem persist_failure_not_retained :
    ∀ (s : Portfolios) (user coin : String) (amt : ℚ) (f : Option ℚ) (now : ℕ),
      (buy_cryptocurrency s user coin amt f false now).2 = s ∧
      (sell_cryptocurrency s user coin amt f false now).2 = s ∧
      (∀ u2, get_portfolio (buy_cryptocurrency s user coin amt f false now).2 u2 =
        get_portfolio s u2) ∧
      (∀ u2, get_portfolio (sell_cryptocurrency s user coin amt f false now).2 u2 =
        get_portfolio s u2) ∧
      (∀ P p, s user = some P → 0 < amt → amt ≤ P.usd_balance → f = some p →
        (buy_cryptocurrency s user coin amt f false now).1 =
          TradeResult.persistFailed) ∧
      (∀ P p, s user = some P → 0 < amt →
        amt ≤ (P.holdings (normalize_coin_id coin)).getD 0 → f = some p →
        (sell_cryptocurrency s user coin amt f false now).1 =
          TradeResult.persistFailed) := by
  intro s user coin amt f now
  have hbuy : (buy_cryptocurrency s user coin amt f false now).2 = s := by
    by_cases h1 : amt ≤ 0
    · simp [buy_cryptocurrency, h1]
    rcases hsu : s user with _ | P
    · simp [buy_cryptocurrency, h1, hsu]
    by_cases h2 : P.usd_balance < amt
    · simp [buy_cryptocurrency, h1, hsu, h2]
    rcases f with _ | p
    · simp [buy_cryptocurrency, h1, hsu, h2]
    · simp [buy_cryptocurrency, h1, hsu, h2]
  have hsell : (sell_cryptocurrency s user coin amt f false now).2 = s := by
    by_cases h1 : amt ≤ 0
    · simp [sell_cryptocurrency, h1]
    rcases hsu : s user with _ | P
    · simp [sell_cryptocurrency, h1, hsu]
    by_cases h2 : (P.holdings (normalize_coin_id coin)).getD 0 < amt
    · simp [sell_cryptocurrency, h1, hsu, h2]
    rcases f with _ | p
    · simp [sell_cryptocurrency, h1, hsu, h2]
    · rcases hH : P.holdings (normalize_coin_id coin) with _ | h0
      · exfalso
        rw [hH] at h2
        simp at h2
        exact h1 h2
      · have h2' : ¬ h0 < amt := by
          rw [hH] at h2
          simpa using h2
        simp [sell_cryptocurrency, h1, hsu, h2, hH, h2']
  refine ⟨hbuy, hsell, ?_, ?_, ?_, ?_⟩
  · intro u2
    rw [hbuy]
  · intro u2
    rw [hsell]
  · intro P p hs hpos hble hf
    subst hf
    have h1 : ¬ amt ≤ 0 := not_le.2 hpos
    have h2 : ¬ P.usd_balance < amt := not_lt.2 hble
    simp [buy_cryptocurrency, h1, hs, h2]
  · intro P p hs hpos hble hf
    subst hf
    have h1 : ¬ amt ≤ 0 := not_le.2 hpos
    have h2 : ¬ (P.holdings (normalize_coin_id coin)).getD 0 < amt := not_lt.2 hble
    rcases hH : P.holdings (normalize_coin_id coin) with _ | h0
    · exfalso
      rw [hH] at h2
      simp at h2
      exact h1 h2
    · have h2' : ¬ h0 < amt := by
        rw [hH] at h2
        simpa using h2
      simp [sell_cryptocurrency, h1, hs, h2, hH, h2']

/-- Witness for the amended C6 theorem: the concrete failed-save buy of the
counterexample scenario reports the persist-failure message. -/
theorem persist_failure_not_retained_w :
    (buy_cryptocurrency
        (Function.update (fun _ => none) "bob" (some ⟨2000, fun _ => none, []⟩))
        "bob" "eth" 100 (some 2) false 7).1 = TradeResult.persistFailed :=
  (persist_failure_not_retained
      (Function.update (fun _ => none) "bob" (some ⟨2000, fun _ => none, []⟩))
      "bob" "eth" 100 (some 2) 7).2.2.2.2.1
    ⟨2000, fun _ => none, []⟩ 2 (Function.update_same _ _ _) (by norm_num)
    (by norm_num) rfl

/-- The spec's portfolio invariant: a non-negative USD balance, and every
entry present in the holdings map strictly positive. -/
def PortfolioInv (P : Portfolio) : Prop :=
  0 ≤ P.usd_balance ∧ ∀ c v, P.holdings c = some v → 0 < v

/-- The invariant holding for every stored portfolio. -/
def StoreInv (s : Portfolios) : Prop :=
  ∀ u P, s u = some P → PortfolioInv P

/-- One caller-visible trading operation together with the outcomes of its
external collaborators (price fetch, save) and its timestamp. -/
inductive Op
  | buy (user coin : String) (amount : ℚ) (fetched : Option ℚ)
      (saveOk : Bool) (now : ℕ)
  | sell (user coin : String) (amount : ℚ) (fetched : Option ℚ)
      (saveOk : Bool) (now : ℕ)

/-- Run one trading operation against the stable state. -/
def applyOp (s : Portfolios) : Op → TradeResult × Portfolios
  | Op.buy user coin amount fetched saveOk now =>
    buy_cryptocurrency s user coin amount fetched saveOk now
  | Op.sell user coin amount fetched saveOk now =>
    sell_cryptocurrency s user coin amount fetched saveOk now

/-- The price-fetch outcome an operation carries. -/
def opFetched : Op → Option ℚ
  | Op.buy _ _ _ f _ _ => f
  | Op.sell _ _ _ f _ _ => f

/-- Run a sequence of trading operations against the stable state. -/
def runOps (s : Portfolios) (ops : List Op) : Portfolios :=
  ops.foldl (fun st op => (applyOp st op).2) s

/-- A buy preserves the store invariant, provided a successfully fetched
price is positive (a USD market price). -/
lemma buy_preserves_inv (s : Portfolios) (user coin : String) (amt : ℚ)
    (f : Option ℚ) (sv : Bool) (now : ℕ)
    (hf : ∀ q, f = some q → 0 < q) (hs : StoreInv s) :
    StoreInv (buy_cryptocurrency s user coin amt f sv now).2 := by
  by_cases h1 : amt ≤ 0
  · simpa [buy_cryptocurrency, h1] using hs
  rcases hsu : s user with _ | P
  · simpa [buy_cryptocurrency, h1, hsu] using hs
  by_cases h2 : P.usd_balance < amt
  · simpa [buy_cryptocurrency, h1, hsu, h2] using hs
  rcases f with _ | p
  · simpa [buy_cryptocurrency, h1, hsu, h2] using hs
  rcases sv with _ | _
  · simpa [buy_cryptocurrency, h1, hsu, h2] using hs
  have hp : 0 < p := hf p rfl
  have hP := hs user P hsu
  intro u2 Q hQ
  simp only [buy_cryptocurrency, h1, if_false, hsu, h2, if_true] at hQ
  by_cases hu : u2 = user
  · subst hu
    rw [Function.update_same] at hQ
    injection hQ with hQ
    subst hQ
    constructor
    · exact sub_nonneg.2 (not_lt.1 h2)
    · intro c v hv
      dsimp only at hv
      by_cases hcX : c = normalize_coin_id coin
      · subst hcX
        rw [Function.update_same] at hv
        injection hv with hv
        subst hv
        have hdpos : 0 < amt / p := div_pos (not_le.1 h1) hp
        rcases hH : P.holdings (normalize_coin_id coin) with _ | w
        · simpa [hH] using hdpos
        · have hw := hP.2 (normalize_coin_id coin) w hH
          have hsum : (0:ℚ) < w + amt / p := add_pos hw hdpos
          simpa [hH] using hsum
      · rw [Function.update_noteq hcX] at hv
        exact hP.2 c v hv
  · rw [Function.update_noteq hu] at hQ
    exact hs u2 Q hQ

/-- A sell preserves the store invariant, provided a successfully fetched
price is positive. -/
lemma sell_preserves_inv (s : Portfolios) (user coin : String) (amt : ℚ)
    (f : Option ℚ) (sv : Bool) (now : ℕ)
    (hf : ∀ q, f = some q → 0 < q) (hs : StoreInv s) :
    StoreInv (sell_cryptocurrency s user coin amt f sv now).2 := by
  by_cases h1 : amt ≤ 0
  · simpa [sell_cryptocurrency, h1] using hs
  rcases hsu : s user with _ | P
  · simpa [sell_cryptocurrency, h1, hsu] using hs
  by_cases h2 : (P.holdings (normalize_coin_id coin)).getD 0 < amt
  · simpa [sell_cryptocurrency, h1, hsu, h2] using hs
  rcases hH : P.holdings (normalize_coin_id coin) with _ | h0
  · exfalso
    rw [hH] at h2
    simp at h2
    exact h1 h2
  have h2' : ¬ h0 < amt := by
    rw [hH] at h2
    simpa using h2
  rcases f with _ | p
  · simpa [sell_cryptocurrency, h1, hsu, h2, hH, h2'] using hs
  rcases sv with _ | _
  · simpa [sell_cryptocurrency, h1, hsu, h2, hH, h2'] using hs
  have hp : 0 < p := hf p rfl
  have hP := hs user P hsu
  have hbal : 0 ≤ P.usd_balance + amt * p :=
    add_nonneg hP.1 (le_of_lt (mul_pos (not_le.1 h1) hp))
  intro u2 Q hQ
  simp only [sell_cryptocurrency, h1, if_false, hsu, hH, Option.getD_some, h2',
    if_true] at hQ
  by_cases hu : u2 = user
  · subst hu
    rw [Function.update_same] at hQ
    injection hQ with hQ
    subst hQ
    by_cases he : h0 - amt < epsilon
    · simp only [he, if_true]
      refine ⟨hbal, ?_⟩
      intro c v hv
      dsimp only at hv
      by_cases hcX : c = normalize_coin_id coin
      · subst hcX
        rw [Function.update_same] at hv
        exact Option.noConfusion hv
      · rw [Function.update_noteq hcX] at hv
        exact hP.2 c v hv
    · simp only [he, if_false]
      refine ⟨hbal, ?_⟩
      intro c v hv
      dsimp only at hv
      by_cases hcX : c = normalize_coin_id coin
      · subst hcX
        rw [Function.update_same] at hv
        injection hv with hv
        subst hv
        have heps : (0:ℚ) < epsilon := by norm_num [epsilon]
        exact lt_of_lt_of_le heps (not_lt.1 he)
      · rw [Function.update_noteq hcX] at hv
        exact hP.2 c v hv
  · rw [Function.update_noteq hu] at hQ
    exact hs u2 Q hQ

/-- Any single operation preserves the store invariant. -/
lemma applyOp_preserves_inv (s : Portfolios) (op : Op)
    (hf : ∀ q, opFetched op = some q → 0 < q) (hs : StoreInv s) :
    StoreInv (applyOp s op).2 := by
  cases op with
  | buy user coin amount fetched saveOk now =>
    exact buy_preserves_inv s user coin amount fetched saveOk now hf hs
  | sell user coin amount fetched saveOk now =>
    exact sell_preserves_inv s user coin amount fetched saveOk now hf hs

/-- Any sequence of operations preserves the store invariant. -/
lemma runOps_preserves_inv :
    ∀ (ops : List Op) (s : Portfolios),
      (∀ op ∈ ops, ∀ q, opFetched op = some q → 0 < q) → StoreInv s →
      StoreInv (runOps s ops) := by
  intro ops
  induction ops with
  | nil => exact fun s _ hs => hs
  | cons op rest ih =>
    intro s hall hs
    simp only [runOps, List.foldl_cons]
    exact ih (applyOp s op).2
      (fun o ho q hq => hall o (List.mem_cons_of_mem op ho) q hq)
      (applyOp_preserves_inv s op
        (fun q hq => hall op (List.mem_cons_self op rest) q hq) hs)

/-- C1: every portfolio reachable from an initialize call with a non-negative
starting balance through any sequence of buy/sell operations (with positive
fetched market prices) has a non-negative USD balance, and every entry
present in its holdings map is strictly positive. This subsumes sequences of
operations that return success; an operation whose validation, price fetch or
save fails leaves stable storage unchanged. -/
theorem portfolio_invariant_reachable (user0 : String) (b : ℚ) (ops : List Op)
    (hb : 0 ≤ b)
    (hops : ∀ op ∈ ops, ∀ q, opFetched op = some q → 0 < q) :
    StoreInv (runOps (init_portfolio (fun _ => none) user0 (some b) true).2 ops) := by
  have hinit : StoreInv (init_portfolio (fun _ => none) user0 (some b) true).2 := by
    intro u P hP
    simp only [init_portfolio, Option.getD_some, if_true] at hP
    by_cases hu : u = user0
    · subst hu
      rw [Function.update_same] at hP
      injection hP with hP
      subst hP
      exact ⟨hb, fun c v hv => Option.noConfusion hv⟩
    · rw [Function.update_noteq hu] at hP
      exact Option.noConfusion hP
  exact runOps_preserves_inv ops _ hops hinit

/-- Witness for the C1 theorem: alice initializes with 1000 USD and buys
500 USD of btc at price 1; the invariant holds for the resulting store. -/
theorem portfolio_invariant_reachable_w :
    StoreInv (runOps (init_portfolio (fun _ => none) "alice" (some 1000) true).2
      [Op.buy "alice" "btc" 500 (some 1) true 0]) := by
  refine portfolio_invariant_reachable "alice" 1000
    [Op.buy "alice" "btc" 500 (some 1) true 0] (by norm_num) ?_
  intro op hop q hq
  rw [List.mem_singleton] at hop
  subst hop
  simp only [opFetched] at hq
  injection hq with hq
  subst hq
  norm_num

/-- Number of crossing notifications about the canonical asset X in a list of
sent notifications. -/
def crossCount (X : String) (l : List Notification) : ℕ :=
  l.countP (fun n => n.asset == X && isCrossing n.kind)

/-- crossCount distributes over list append. -/
lemma crossCount_append (X : String) (l1 l2 : List Notification) :
    crossCount X (l1 ++ l2) = crossCount X l1 + crossCount X l2 :=
  List.countP_append _ _ _

/-- Notifications about a different canonical asset contribute no X crossing. -/
lemma crossCount_map_ne (X A u : String) (hne : A ≠ X) (ks : List NotifKind) :
    crossCount X (ks.map fun k => (⟨u, A, k⟩ : Notification)) = 0 := by
  rw [crossCount, List.countP_eq_zero]
  intro n hn
  rcases List.mem_map.1 hn with ⟨k, _, rfl⟩
  simp [hne]

/-- A direction message is never counted as a crossing. -/
lemma crossCount_direction (X A u : String) (prev cur : ℚ) :
    crossCount X [(⟨u, A, directionKind prev cur⟩ : Notification)] = 0 := by
  rw [crossCount, List.countP_eq_zero]
  intro n hn
  rcases List.mem_singleton.1 hn with rfl
  simp [isCrossing_directionKind]

/-- When previous and current price coincide, no crossing fires. -/
lemma crossingKind_self (T c : ℚ) : crossingKind c T c = none := by
  unfold crossingKind
  split_ifs with h1 h2
  · exact absurd (lt_of_lt_of_le h1.1 h1.2) (lt_irrefl c)
  · exact absurd (lt_of_le_of_lt h2.2 h2.1) (lt_irrefl c)
  · rfl

/-- Effect of one loop iteration on the X crossing count and the recorded X
observation, when every successful X fetch yields the price p: either the
iteration concerns another asset or a failed fetch and changes nothing about
X, or it is a successful X fetch of p, records p, adds at most one X crossing,
and adds none at all when p was already the recorded observation. -/
lemma stepAlert_crossCount (X : String) (p : ℚ) (st : SweepState) (a : Alert)
    (f : Option ℚ) (hf : alert_coin_id a.coin = X → f = none ∨ f = some p) :
    (¬ (alert_coin_id a.coin = X ∧ f = some p) ∧
       crossCount X (stepAlert st (a, f)).notifs = crossCount X st.notifs ∧
       (stepAlert st (a, f)).history X = st.history X) ∨
    (alert_coin_id a.coin = X ∧ f = some p ∧
       crossCount X (stepAlert st (a, f)).notifs ≤ crossCount X st.notifs + 1 ∧
       (stepAlert st (a, f)).history X = some p ∧
       (st.history X = some p →
         crossCount X (stepAlert st (a, f)).notifs = crossCount X st.notifs)) := by
  rcases f with _ | q
  · left
    refine ⟨?_, ?_, ?_⟩
    · rintro ⟨_, h⟩
      exact Option.noConfusion h
    · rw [stepAlert_none]
    · rw [stepAlert_none]
  · by_cases hX : alert_coin_id a.coin = X
    · have hq : p = q := by
        rcases hf hX with h | h
        · exact Option.noConfusion h
        · exact (Option.some.inj h).symm
      subst hq
      right
      refine ⟨hX, rfl, ?_, ?_, ?_⟩
      · simp only [stepAlert, processAlert]
        rw [crossCount_append, crossCount_append, hX, crossCount_direction]
        have hcp : crossCount X
            ((crossingKind ((st.history X).getD p) a.target_price p).toList.map
              fun k => (⟨a.user, X, k⟩ : Notification)) ≤ 1 := by
          refine le_trans (List.countP_le_length _) ?_
          rcases crossingKind ((st.history X).getD p) a.target_price p with _ | k <;>
            simp
        omega
      · simp only [stepAlert, processAlert]
        rw [hX, Function.update_same]
      · intro hh
        simp only [stepAlert, processAlert]
        rw [hX, hh]
        rw [show (some p).getD p = p from rfl, crossingKind_self]
        rw [crossCount_append]
        simp only [Option.toList, List.map_nil, List.nil_append]
        rw [crossCount_direction]
        omega
    · left
      refine ⟨?_, ?_, ?_⟩
      · rintro ⟨h, _⟩
        exact hX h
      · simp only [stepAlert, processAlert]
        rw [crossCount_append, crossCount_append,
          crossCount_map_ne X (alert_coin_id a.coin) a.user hX,
          crossCount_direction]
        omega
      · simp only [stepAlert, processAlert]
        rw [Function.update_noteq (fun h => hX h.symm)]

/-- Sweep induction: starting from a state with at most one X crossing sent
(and, when one was sent, p already recorded for X), a sweep whose successful
X fetches all yield p keeps the X crossing count at most one; and once an X
observation exists or one is made during the sweep, the final recorded X
observation is exactly p. -/
lemma sweep_aux (X : String) (p : ℚ) :
    ∀ (l : List (Alert × Option ℚ)) (st : SweepState),
      (∀ af ∈ l, alert_coin_id (Prod.fst af).coin = X → af.2 = none ∨ af.2 = some p) →
      crossCount X st.notifs ≤ 1 →
      (1 ≤ crossCount X st.notifs → st.history X = some p) →
      (crossCount X (List.foldl stepAlert st l).notifs ≤ 1 ∧
       (1 ≤ crossCount X (List.foldl stepAlert st l).notifs →
         (List.foldl stepAlert st l).history X = some p) ∧
       (((∃ af ∈ l, alert_coin_id (Prod.fst af).coin = X ∧ af.2 = some p) ∨
          st.history X = some p) →
         (List.foldl stepAlert st l).history X = some p)) := by
  intro l
  induction l with
  | nil =>
    intro st hall h1 h2
    refine ⟨h1, h2, ?_⟩
    rintro (⟨af, haf, _⟩ | hh)
    · exact absurd haf (List.not_mem_nil af)
    · exact hh
  | cons hd rest ih =>
    intro st hall h1 h2
    rcases hd with ⟨a, f⟩
    have htl : ∀ af ∈ rest, alert_coin_id (Prod.fst af).coin = X →
        af.2 = none ∨ af.2 = some p :=
      fun af haf => hall af (List.mem_cons_of_mem _ haf)
    have hstep := stepAlert_crossCount X p st a f
      (fun hX => hall (a, f) (List.mem_cons_self _ _) hX)
    simp only [List.foldl_cons]
    rcases hstep with ⟨hnot, hcnt, hhist⟩ | ⟨hX, hfp, hle, hnew, hsame⟩
    · have hres := ih (stepAlert st (a, f)) htl
        (by rw [hcnt]; exact h1)
        (by
          intro hg
          rw [hhist]
          exact h2 (by rw [← hcnt]; exact hg))
      refine ⟨hres.1, hres.2.1, ?_⟩
      rintro (⟨af, haf, hXs⟩ | hh)
      · rcases List.mem_cons.1 haf with rfl | hmem
        · exact absurd hXs hnot
        · exact hres.2.2 (Or.inl ⟨af, hmem, hXs⟩)
      · refine hres.2.2 (Or.inr ?_)
        rw [hhist]
        exact hh
    · have h1' : crossCount X (stepAlert st (a, f)).notifs ≤ 1 := by
        by_cases hh : st.history X = some p
        · rw [hsame hh]
          exact h1
        · have hc0 : crossCount X st.notifs = 0 := by
            by_contra hne
            exact hh (h2 (Nat.one_le_iff_ne_zero.2 hne))
          calc crossCount X (stepAlert st (a, f)).notifs
              ≤ crossCount X st.notifs + 1 := hle
            _ = 1 := by rw [hc0]
      have hres := ih (stepAlert st (a, f)) htl h1' (fun _ => hnew)
      exact ⟨hres.1, hres.2.1, fun _ => hres.2.2 (Or.inr hnew)⟩

/-- C10: within a single sweep whose successful fetches for the canonical
asset X all return the same price p, (a) at most one crossing notification
about X is emitted regardless of iteration order; (b) once some alert for X
succeeds, the recorded observation for X is exactly p; and (c) an alert for X
processed after an earlier successful X alert observes a previous price equal
to its current price, and emits no crossing. -/
theorem same_price_single_crossing (alerts : List (Alert × Option ℚ))
    (h0 : PriceMap) (X : String) (p : ℚ)
    (hsame : ∀ af ∈ alerts, alert_coin_id (Prod.fst af).coin = X →
      af.2 = none ∨ af.2 = some p) :
    crossCount X (check_alerts alerts h0).notifs ≤ 1 ∧
    ((∃ af ∈ alerts, alert_coin_id (Prod.fst af).coin = X ∧ af.2 = some p) →
      (check_alerts alerts h0).history X = some p) ∧
    (∀ (pre post : List (Alert × Option ℚ)) (a2 : Alert),
      alerts = pre ++ (a2, some p) :: post →
      (∃ af ∈ pre, alert_coin_id (Prod.fst af).coin = X ∧ af.2 = some p) →
      alert_coin_id a2.coin = X →
      (check_alerts pre h0).history (alert_coin_id a2.coin) = some p ∧
      crossCount X
        (processAlert (check_alerts pre h0).history a2 (some p)).1 = 0) := by
  have h := sweep_aux X p alerts ⟨[], h0, false⟩ hsame
    (by simp [crossCount]) (by simp [crossCount])
  refine ⟨h.1, fun hex => h.2.2 (Or.inl hex), ?_⟩
  intro pre post a2 heq hex hX2
  have hpre : ∀ af ∈ pre, alert_coin_id (Prod.fst af).coin = X →
      af.2 = none ∨ af.2 = some p := by
    intro af haf
    exact hsame af (by rw [heq]; exact List.mem_append_left _ haf)
  have hp := sweep_aux X p pre ⟨[], h0, false⟩ hpre
    (by simp [crossCount]) (by simp [crossCount])
  have hh : (check_alerts pre h0).history X = some p := hp.2.2 (Or.inl hex)
  constructor
  · rw [hX2]
    exact hh
  · simp only [processAlert]
    rw [hX2, hh]
    rw [show (some p).getD p = p from rfl, crossingKind_self]
    simp only [Option.toList, List.map_nil, List.nil_append]
    rw [crossCount_direction]

/-- Witness for the C10 theorem: two alerts on icp with the same fetched
price 12; the sweep emits at most one crossing notification for
internet-computer. -/
theorem same_price_single_crossing_w :
    crossCount "internet-computer"
      (check_alerts [(⟨"bob", "icp", 10⟩, some 12), (⟨"carol", "icp", 10⟩, some 12)]
        (fun _ => none)).notifs ≤ 1 :=
  (same_price_single_crossing
      [(⟨"bob", "icp", 10⟩, some 12), (⟨"carol", "icp", 10⟩, some 12)]
      (fun _ => none) "internet-computer" 12 (by decide)).1
